import Mathlib

/-!
Verification development for the semantic-memory / multi-agent assistant
repository.  The Lean definitions below are a shallow embedding of the
Python source:

* `VectorMemory`, `add_memory`, `search_memories`, `delete_memory`,
  `get_memory`, `get_stats` embed `app/core/memory.py`;
* `save_index_trace` embeds the filesystem effects of
  `VectorMemory._save_index`;
* `AgentTask`, `execute_task`, `add_task` embed `app/agents/base.py`;
* `analyze_task`, `delegate`, `delegate_and_coordinate` embed
  `app/agents/assistant.py`.

External collaborators (the sentence-transformer embedding model, the LLM
provider, `re.search` + `json.loads` on provider output, wall-clock time)
are passed in as explicit parameters.  Real-valued similarity scores are
modelled over `ℤ`: the store logic uses only ordering and equality of
scores, never field structure.
-/

namespace Assistant

/-- An embedding vector (`np.ndarray` of floats in the source). -/
abbrev Vec := List ℤ

/-- Inner product of two vectors (`faiss.IndexFlatIP` similarity). -/
def dot : Vec → Vec → ℤ
  | [], _ => 0
  | _, [] => 0
  | a :: as, b :: bs => a * b + dot as bs

/-- One ranked hit of the FAISS index: (position, score).  Insert a hit into
a list sorted by descending score, ties broken by ascending position. -/
def insertHit (p : ℕ × ℤ) : List (ℕ × ℤ) → List (ℕ × ℤ)
  | [] => [p]
  | q :: rest =>
    if q.2 < p.2 ∨ (p.2 = q.2 ∧ p.1 < q.1) then p :: q :: rest
    else q :: insertHit p rest

/-- Sort hits by descending score, ties by ascending position. -/
def sortHits (l : List (ℕ × ℤ)) : List (ℕ × ℤ) := l.foldr insertHit []

/-- `index.search(qv, n)`: score every stored vector against the query by
inner product and return the best `n` (position, score) pairs, descending
score, ties by ascending insertion position. -/
def faissSearch (vectors : List Vec) (qv : Vec) (n : ℕ) : List (ℕ × ℤ) :=
  (sortHits ((vectors.enum).map (fun p => (p.1, dot qv p.2)))).take n

/-- The per-entry metadata dict stored in `VectorMemory.metadata`
(`text`, `metadata`, `created_at`, `faiss_id`; `deleted` is absent until
`delete_memory` sets it, modelled as a `Bool` that starts `false`). -/
structure MemoryMeta where
  text : String
  metadata : List (String × String)
  created_at : String
  faiss_id : ℕ
  deleted : Bool
deriving DecidableEq

/-- The in-memory state of `VectorMemory`: the FAISS index contents
(`index.ntotal = vectors.length`), the insertion-ordered metadata dict,
and the id counter. -/
structure VectorMemory where
  dimension : ℕ
  vectors : List Vec
  metadata : List (String × MemoryMeta)
  next_id : ℕ
deriving DecidableEq

/-- A freshly created store (`_load_or_create_index` with no prior state). -/
def emptyStore (dim : ℕ) : VectorMemory :=
  { dimension := dim, vectors := [], metadata := [], next_id := 0 }

/-- Typed errors of the memory layer: the embedding provider call failed,
or a vector's shape violated the index dimension. -/
inductive MemErr where
  | embeddingFailure
  | dimensionMismatch
deriving DecidableEq

/-- `VectorMemory.add_memory`.  The embedding provider is the function
`embed` (`none` = the encoder raised).  Errors carry the state the mutable
`self` is left in when the exception propagates: embedding failure happens
before any mutation; a dimension mismatch raises inside `index.add`, after
`next_id` was already incremented. -/
def add_memory (embed : String → Option Vec) (text : String)
    (md : List (String × String)) (now : String) (s : VectorMemory) :
    Except (MemErr × VectorMemory) (String × VectorMemory) :=
  match embed text with
  | none => .error (.embeddingFailure, s)
  | some v =>
    let memory_id := "mem_" ++ toString s.next_id
    let s1 : VectorMemory := { s with next_id := s.next_id + 1 }
    if v.length ≠ s1.dimension then
      .error (.dimensionMismatch, s1)
    else
      let s2 : VectorMemory := { s1 with vectors := s1.vectors ++ [v] }
      let meta : MemoryMeta :=
        { text := text, metadata := md, created_at := now,
          faiss_id := s2.vectors.length - 1, deleted := false }
      .ok (memory_id, { s2 with metadata := s2.metadata ++ [(memory_id, meta)] })

/-- One row of `search_memories`' result list. -/
structure SearchResult where
  id : String
  text : String
  score : ℤ
  metadata : List (String × String)
deriving DecidableEq

/-- The linear scan `for mid, meta in self.metadata.items(): if
meta['faiss_id'] == idx` inside `search_memories`. -/
def findByFaissId (metadata : List (String × MemoryMeta)) (idx : ℕ) :
    Option (String × MemoryMeta) :=
  metadata.find? (fun p => p.2.faiss_id == idx)

/-- The result-collection loop of `search_memories`: for each (position,
score) hit in rank order, keep it if `score >= threshold` and a metadata
entry owns that position (`if memory_id:` also drops a falsy empty id). -/
def collectResults (metadata : List (String × MemoryMeta)) (threshold : ℤ) :
    List (ℕ × ℤ) → List SearchResult
  | [] => []
  | (idx, score) :: rest =>
    if threshold ≤ score then
      match findByFaissId metadata idx with
      | some (mid, meta) =>
        if mid = "" then collectResults metadata threshold rest
        else { id := mid, text := meta.text, score := score,
               metadata := meta.metadata } :: collectResults metadata threshold rest
      | none => collectResults metadata threshold rest
    else collectResults metadata threshold rest

/-- The body of `search_memories`' `try:` block (everything up to the
`except` clause), as a fallible computation. -/
def search_memories_core (embed : String → Option Vec) (query : String)
    (k : ℕ) (threshold : ℤ) (s : VectorMemory) :
    Except MemErr (List SearchResult) :=
  if s.vectors.length = 0 then .ok []
  else
    match embed query with
    | none => .error .embeddingFailure
    | some qv =>
      if qv.length ≠ s.dimension then .error .dimensionMismatch
      else
        .ok (collectResults s.metadata threshold
              (faissSearch s.vectors qv (min k s.vectors.length)))

/-- `VectorMemory.search_memories`: the `except Exception` clause catches
every error from the body and returns the empty list. -/
def search_memories (embed : String → Option Vec) (query : String)
    (k : ℕ) (threshold : ℤ) (s : VectorMemory) : List SearchResult :=
  match search_memories_core embed query k threshold s with
  | .ok r => r
  | .error _ => []

/-- `VectorMemory.get_memory`: direct dict lookup, deleted or not. -/
def get_memory (memory_id : String) (s : VectorMemory) : Option MemoryMeta :=
  (s.metadata.find? (fun p => p.1 == memory_id)).map (fun p => p.2)

/-- The in-place tombstoning of one dict entry performed by
`delete_memory` (`self.metadata[memory_id]['deleted'] = True`). -/
def tombstone (memory_id : String) (p : String × MemoryMeta) :
    String × MemoryMeta :=
  if p.1 == memory_id then (p.1, { p.2 with deleted := true }) else p

/-- `VectorMemory.delete_memory`: tombstone the entry in place (Python dict
update keeps insertion order); `false` if the id does not exist.  The
trailing `_save_index` call only touches disk. -/
def delete_memory (memory_id : String) (s : VectorMemory) :
    Bool × VectorMemory :=
  if s.metadata.any (fun p => p.1 == memory_id) then
    (true, { s with metadata := s.metadata.map (tombstone memory_id) })
  else (false, s)

/-- `VectorMemory.get_stats` (the fields the invariants talk about). -/
def get_stats (s : VectorMemory) : ℕ × ℕ × ℕ × ℕ :=
  (s.metadata.length,
   (s.metadata.filter (fun p => !p.2.deleted)).length,
   s.vectors.length, s.dimension)

/-! ### Persistence effects of `_save_index` -/

/-- A filesystem effect: a whole-file write to a path, or a rename. -/
inductive FsOp where
  | write (path : String) (blob : String)
  | rename (src dst : String)
deriving DecidableEq

/-- The sequence of filesystem effects performed by
`VectorMemory._save_index`: `faiss.write_index` straight to
`faiss_index.bin`, then `pickle.dump` straight to `metadata.pkl`, then
`pickle.dump` straight to `config.pkl`.  `dir` is
`settings.vector_db_path`; the three blobs are the serialized index,
metadata dict and config dict. -/
def save_index_trace (dir indexBlob metaBlob configBlob : String) : List FsOp :=
  [ .write (dir ++ "/faiss_index.bin") indexBlob,
    .write (dir ++ "/metadata.pkl") metaBlob,
    .write (dir ++ "/config.pkl") configBlob ]

/-- The spec's write-ahead-then-rename discipline for one persisted
artifact: the trace writes some fresh temporary path and renames it onto
the final path, and never writes the final path directly. -/
def atomicReplace (trace : List FsOp) (finalPath : String) : Prop :=
  (∃ tmp, tmp ≠ finalPath ∧ (∃ blob, FsOp.write tmp blob ∈ trace) ∧
      FsOp.rename tmp finalPath ∈ trace) ∧
  ∀ blob, FsOp.write finalPath blob ∉ trace

/-! ### Task lifecycle (`app/agents/base.py`) -/

/-- `TaskStatus`. -/
inductive TaskStatus where
  | pending
  | running
  | completed
  | failed
deriving DecidableEq

/-- `AgentTask` (the fields the lifecycle mutates; `context`, `priority`
and `created_at` are carried along unchanged by `execute_task` and are
irrelevant to the lifecycle claims). -/
structure AgentTask where
  id : String
  description : String
  status : TaskStatus
  result : Option String
  error : Option String
  completed_at : Option ℕ
deriving DecidableEq

/-- A `BaseAgent`'s mutable task map (`self.tasks`), an insertion-ordered
dict, plus its name. -/
structure Agent where
  name : String
  tasks : List (String × AgentTask)
deriving DecidableEq

/-- `task_id in self.tasks` / `self.tasks[task_id]`. -/
def lookupTask (a : Agent) (tid : String) : Option AgentTask :=
  (a.tasks.find? (fun p => p.1 == tid)).map (fun p => p.2)

/-- In-place update of the stored record (Python mutates the shared
`AgentTask` object; dict insertion order is preserved). -/
def setTask (a : Agent) (tid : String) (t : AgentTask) : Agent :=
  { a with tasks := a.tasks.map (fun p => if p.1 == tid then (p.1, t) else p) }

/-- `BaseAgent.add_task`: allocate the id
`f"{self.name}_{len(self.tasks)}_{int(timestamp)}"` and store a fresh
Pending record. -/
def add_task (timestamp : ℕ) (desc : String) (a : Agent) : String × Agent :=
  let task_id := a.name ++ "_" ++ toString a.tasks.length ++ "_" ++ toString timestamp
  (task_id,
   { a with tasks := a.tasks ++
       [(task_id,
         { id := task_id, description := desc, status := .pending,
           result := none, error := none, completed_at := none })] })

/-- `BaseAgent.execute_task`.  `logic` is the subclass's abstract
`_execute_task` (`.error e` = it raised, with `str(e) = e`); `now` is the
wall clock stamped into `completed_at`.  Returns `ValueError`'s message if
the id is unknown; otherwise the (final) record, the updated agent state,
and whether `logic` was invoked.  The post-completion `_store_in_memory`
call swallows its own exceptions and never touches the record, so it does
not appear in the state. -/
def execute_task (logic : AgentTask → Except String String) (now : ℕ)
    (a : Agent) (tid : String) : Except String (AgentTask × Agent × Bool) :=
  match lookupTask a tid with
  | none => .error ("Task " ++ tid ++ " not found")
  | some task =>
    if task.status ≠ .pending then .ok (task, a, false)
    else
      let running : AgentTask := { task with status := .running }
      match logic running with
      | .ok r =>
        let done : AgentTask :=
          { running with
            status := .completed
            result := some r
            completed_at := some now }
        .ok (done, setTask a tid done, true)
      | .error e =>
        let failed : AgentTask :=
          { running with
            status := .failed
            error := some e
            completed_at := some now }
        .ok (failed, setTask a tid failed, true)

/-! ### Orchestrator (`app/agents/assistant.py`) -/

/-- One subtask of a parsed decomposition (`{"description", "agent",
"priority"}`). -/
structure Subtask where
  description : String
  agent : String
  priority : ℕ
deriving DecidableEq

/-- A JSON value, as `json.loads` produces it. -/
inductive JsonValue where
  | null
  | bool (b : Bool)
  | str (s : String)
  | num (n : ℤ)
  | arr (elems : List JsonValue)
  | obj (fields : List (String × JsonValue))

/-- Python truthiness of a JSON value (`if analysis["needs_delegation"]:`
coerces whatever value sits under the key). -/
def jsonTruthy : JsonValue → Bool
  | .null => false
  | .bool b => b
  | .str s => !(s == "")
  | .num n => !(n == 0)
  | .arr elems => !elems.isEmpty
  | .obj fields => !fields.isEmpty

/-- The outcome of `re.search` + `json.loads` on the provider's free-form
response text: no `{.*}` match, a match on which `json.loads` raises
`json.JSONDecodeError`, or a match that loads as an arbitrary dict —
conforming to the decomposition schema or not. -/
inductive JsonParse where
  | noMatch
  | parseError
  | parsed (d : List (String × JsonValue))

/-- The fallback dict `_analyze_task` builds on a parse failure. -/
def fallbackJson (reason : String) : List (String × JsonValue) :=
  [("needs_delegation", .bool false), ("task_type", .str "general"),
   ("complexity", .str "medium"), ("subtasks", .arr []),
   ("reasoning", .str reason)]

/-- `AssistantAgent._analyze_task`, parameterized by the outcome of the
external parse of the provider response.  A successfully loaded dict is
returned unchanged, whether or not it conforms to the decomposition
schema; only the two parse-failure paths build the fallback. -/
def analyze_task (extract : JsonParse) : List (String × JsonValue) :=
  match extract with
  | .parsed d => d
  | .noMatch => fallbackJson "Could not parse analysis, handling directly"
  | .parseError => fallbackJson "JSON parsing failed, handling directly"

/-- Python dict lookup `d[k]`, as an option (`none` = `KeyError`). -/
def jsonLookup (d : List (String × JsonValue)) (k : String) :
    Option JsonValue :=
  (d.find? (fun p => p.1 == k)).map (fun p => p.2)

/-- The dispatch test `if analysis["needs_delegation"]:` performed by
`AssistantAgent._execute_task` on the analysis `_analyze_task` returned:
a `KeyError` on a dict without the key (which `_execute_task`'s `except`
clause re-raises), otherwise the truthiness of the value. -/
def needsDelegationStep (analysis : List (String × JsonValue)) :
    Except String Bool :=
  match jsonLookup analysis "needs_delegation" with
  | none => .error "KeyError: needs_delegation"
  | some v => .ok (jsonTruthy v)

/-- One entry of the `results` list `_delegate_and_coordinate` builds:
the dict has a `result` key on success and an `error` key otherwise. -/
structure Outcome where
  agent : String
  subtask : String
  result : Option String
  error : Option String
deriving DecidableEq

/-- `self.sub_agents`: the registry mapping handler name to its agent
state, with each sub-agent's `_execute_task` given by `logics` keyed by
the agent's name. -/
structure Registry where
  agents : List (String × Agent)
deriving DecidableEq

/-- `agent_name in self.sub_agents` / `self.sub_agents[agent_name]`. -/
def lookupAgent (r : Registry) (nm : String) : Option Agent :=
  (r.agents.find? (fun p => p.1 == nm)).map (fun p => p.2)

/-- Store back an updated sub-agent state. -/
def setAgent (r : Registry) (nm : String) (a : Agent) : Registry :=
  { agents := r.agents.map (fun p => if p.1 == nm then (p.1, a) else p) }

/-- Dispatch of one subtask inside `_delegate_and_coordinate`'s loop:
`add_task` on the named agent, `execute_task` on the fresh id, and an
outcome dict keyed by whether the record ended `COMPLETED`. -/
def dispatchSubtask (logics : String → AgentTask → Except String String)
    (timestamp now : ℕ) (st : Subtask) (ag : Agent) : Outcome × Agent :=
  let added := add_task timestamp st.description ag
  match execute_task (logics st.agent) now added.2 added.1 with
  | .ok (rec, ag', _) =>
    if rec.status = .completed then
      ({ agent := st.agent, subtask := st.description,
         result := rec.result, error := none }, ag')
    else
      ({ agent := st.agent, subtask := st.description,
         result := none, error := rec.error }, ag')
  | .error e =>
    ({ agent := st.agent, subtask := st.description,
       result := none, error := some e }, ag)

/-- The delegation loop of `AssistantAgent._delegate_and_coordinate`: for
each subtask in order, if its handler name is not registered it is skipped
(`continue` — only a warning is logged), otherwise it is dispatched and
one outcome appended. -/
def delegate (logics : String → AgentTask → Except String String)
    (timestamp now : ℕ) : Registry → List Subtask → List Outcome × Registry
  | r, [] => ([], r)
  | r, st :: rest =>
    match lookupAgent r st.agent with
    | none => delegate logics timestamp now r rest
    | some ag =>
      let step := dispatchSubtask logics timestamp now st ag
      let tail := delegate logics timestamp now (setAgent r st.agent step.2) rest
      (step.1 :: tail.1, tail.2)

/-- `_delegate_and_coordinate` ends by passing the collected outcome list,
in order, to `_synthesize_results` (`synth` abstracts the LLM call). -/
def delegate_and_coordinate (synth : List Outcome → String)
    (logics : String → AgentTask → Except String String)
    (timestamp now : ℕ) (r : Registry) (subtasks : List Subtask) : String :=
  synth (delegate logics timestamp now r subtasks).1

/-! ### Sequences of `add_memory` calls and the store invariant -/

/-- One `add_memory` call of a test sequence: the outcome of the external
embedding call for that text, plus the arguments. -/
structure AddInput where
  embedResult : Option Vec
  text : String
  md : List (String × String)
  now : String
deriving DecidableEq

/-- Run one `add_memory` call, keeping the state the mutable store holds
afterwards whether the call succeeded or raised. -/
def applyAdd (s : VectorMemory) (inp : AddInput) : VectorMemory :=
  match add_memory (fun _ => inp.embedResult) inp.text inp.md inp.now s with
  | .ok (_, s') => s'
  | .error (_, s') => s'

/-- Run a whole sequence of `add_memory` calls. -/
def runAdds (inputs : List AddInput) (s : VectorMemory) : VectorMemory :=
  inputs.foldl applyAdd s

/-- The spec's Memory Store invariant: every non-deleted entry's
`vectorPosition` (`faiss_id`) is strictly below the index size, and no two
non-deleted entries share a position. -/
def memInvariant (s : VectorMemory) : Prop :=
  (∀ p ∈ s.metadata, p.2.deleted = false → p.2.faiss_id < s.vectors.length) ∧
  List.Pairwise
    (fun p q : String × MemoryMeta =>
      p.2.deleted = false → q.2.deleted = false → p.2.faiss_id ≠ q.2.faiss_id)
    s.metadata

/-- The stronger position invariant that actually holds: every entry,
deleted or not, has `faiss_id < index size`, and all `faiss_id`s are
pairwise distinct. -/
def posInvariant (s : VectorMemory) : Prop :=
  (∀ p ∈ s.metadata, p.2.faiss_id < s.vectors.length) ∧
  List.Pairwise
    (fun p q : String × MemoryMeta => p.2.faiss_id ≠ q.2.faiss_id)
    s.metadata

/-! ### Concrete fixtures for witnesses and counterexamples -/

/-- An embedding provider that always succeeds with the 1-dimensional
vector `[1]`. -/
def embedOne : String → Option Vec := fun _ => some [1]

/-- An embedding provider whose encoder always raises. -/
def embedFail : String → Option Vec := fun _ => none

/-- A 1-dimensional store holding exactly one entry, built by `add_memory`
on the empty store. -/
def oneEntryStore : VectorMemory :=
  match add_memory embedOne "hello" [] "t0" (emptyStore 1) with
  | .ok (_, s) => s
  | .error (_, s) => s

/-- An agent holding one Pending task `"t1"`. -/
def agentOnePending : Agent :=
  { name := "A",
    tasks := [("t1",
      { id := "t1", description := "work", status := .pending,
        result := none, error := none, completed_at := none })] }

/-- Execution logic that always succeeds with result `"r"`. -/
def logicOk : AgentTask → Except String String := fun _ => .ok "r"

/-- Execution logic that always raises `"boom"`. -/
def logicBoom : AgentTask → Except String String := fun _ => .error "boom"

/-- A registry with `CodeAgent` and `DocsAgent` registered (and nothing
else), each with an empty task map. -/
def regTwo : Registry :=
  { agents := [("CodeAgent", { name := "CodeAgent", tasks := [] }),
               ("DocsAgent", { name := "DocsAgent", tasks := [] })] }

/-- Three subtasks whose 2nd names the unregistered handler `ToolAgent`. -/
def threeSubtasks : List Subtask :=
  [ { description := "s1", agent := "CodeAgent", priority := 1 },
    { description := "s2", agent := "ToolAgent", priority := 1 },
    { description := "s3", agent := "DocsAgent", priority := 1 } ]

/-- Per-agent execution logic for the delegation fixture: every dispatched
task completes. -/
def logicsOk : String → AgentTask → Except String String :=
  fun _ _ => .ok "done"

/-! ### Helper lemmas -/

/-- `add_memory` returns the embedding failure before touching the store. -/
theorem add_memory_embed_fail (embed : String → Option Vec) (text : String)
    (md : List (String × String)) (now : String) (s : VectorMemory)
    (h : embed text = none) :
    add_memory embed text md now s = .error (.embeddingFailure, s) := by
  simp [add_memory, h]

/-- `add_memory` propagates a dimension mismatch raised by `index.add`;
by then `next_id` has already been incremented. -/
theorem add_memory_dim_mismatch (embed : String → Option Vec) (text : String)
    (md : List (String × String)) (now : String) (s : VectorMemory)
    (v : Vec) (hv : embed text = some v) (hd : v.length ≠ s.dimension) :
    add_memory embed text md now s =
      .error (.dimensionMismatch, { s with next_id := s.next_id + 1 }) := by
  simp [add_memory, hv, hd]

/-- `search_memories` returns the empty list whenever the body of its
`try:` block raises. -/
theorem search_memories_swallows (embed : String → Option Vec)
    (query : String) (k : ℕ) (threshold : ℤ) (s : VectorMemory) (e : MemErr)
    (h : search_memories_core embed query k threshold s = .error e) :
    search_memories embed query k threshold s = [] := by
  simp [search_memories, h]

/-- Updating the stored record for `tid` makes a subsequent lookup of
`tid` return the new record (list-level form). -/
theorem find?_setTask (tid : String) (t' : AgentTask) :
    ∀ l : List (String × AgentTask),
      (l.find? (fun p => p.1 == tid)).isSome →
      (l.map (fun p => if p.1 == tid then (p.1, t') else p)).find?
          (fun p => p.1 == tid) = some (tid, t')
  | [], h => by simp at h
  | p :: rest, h => by
    by_cases hp : (p.1 == tid) = true
    · have hpe : p.1 = tid := by simpa using hp
      simp [hp, hpe]
    · have hp' : (p.1 == tid) = false := by simpa using hp
      have hrest : (rest.find? (fun p => p.1 == tid)).isSome := by
        simpa [List.find?_cons, hp'] using h
      have ih := find?_setTask tid t' rest hrest
      simp only [List.map_cons]
      rw [show (if p.1 == tid then (p.1, t') else p) = p from by simp [hp']]
      rw [List.find?_cons_of_neg]
      · exact ih
      · simp [hp']

/-- Updating the stored record for `tid` makes a subsequent lookup of
`tid` return the new record. -/
theorem lookupTask_setTask (a : Agent) (tid : String) (t t' : AgentTask)
    (h : lookupTask a tid = some t) :
    lookupTask (setTask a tid t') tid = some t' := by
  have hs : ((a.tasks).find? (fun p => p.1 == tid)).isSome := by
    unfold lookupTask at h
    cases hf : (a.tasks).find? (fun p => p.1 == tid) with
    | none => rw [hf] at h; simp at h
    | some q => simp [hf]
  unfold lookupTask setTask
  rw [find?_setTask tid t' a.tasks hs]
  rfl

/-- The successful branch of `add_memory`, in explicit form. -/
theorem add_memory_ok_state (embed : String → Option Vec) (text : String)
    (md : List (String × String)) (now : String) (s : VectorMemory)
    (v : Vec) (hv : embed text = some v) (hd : v.length = s.dimension) :
    add_memory embed text md now s =
      .ok ("mem_" ++ toString s.next_id,
        { dimension := s.dimension
          vectors := s.vectors ++ [v]
          metadata := s.metadata ++
            [("mem_" ++ toString s.next_id,
              { text := text, metadata := md, created_at := now,
                faiss_id := (s.vectors ++ [v]).length - 1, deleted := false })]
          next_id := s.next_id + 1 }) := by
  simp [add_memory, hv, hd]

/-- `applyAdd` preserves the strong position invariant. -/
theorem posInvariant_applyAdd (s : VectorMemory) (inp : AddInput)
    (h : posInvariant s) : posInvariant (applyAdd s inp) := by
  cases hv : inp.embedResult with
  | none =>
    have heq : applyAdd s inp = s := by
      unfold applyAdd
      rw [add_memory_embed_fail _ _ _ _ _ (by simp [hv])]
    rw [heq]; exact h
  | some v =>
    by_cases hd : v.length = s.dimension
    · have heq : applyAdd s inp =
          { dimension := s.dimension
            vectors := s.vectors ++ [v]
            metadata := s.metadata ++
              [("mem_" ++ toString s.next_id,
                { text := inp.text, metadata := inp.md, created_at := inp.now,
                  faiss_id := (s.vectors ++ [v]).length - 1,
                  deleted := false })]
            next_id := s.next_id + 1 } := by
        unfold applyAdd
        rw [add_memory_ok_state (fun _ => inp.embedResult) inp.text inp.md
          inp.now s v (by simp [hv]) hd]
      rw [heq]
      obtain ⟨h1, h2⟩ := h
      constructor
      · intro p hp
        simp only [List.mem_append, List.mem_singleton] at hp
        rcases hp with hp | hp
        · have := h1 p hp
          simp only [List.length_append, List.length_singleton]
          omega
        · subst hp
          simp
      · rw [List.pairwise_append]
        refine ⟨h2, by simp, ?_⟩
        intro p hp q hq
        simp only [List.mem_singleton] at hq
        subst hq
        have := h1 p hp
        simp only [List.length_append, List.length_singleton]
        omega
    · have heq : applyAdd s inp = { s with next_id := s.next_id + 1 } := by
        unfold applyAdd
        rw [add_memory_dim_mismatch _ _ _ _ _ v (by simp [hv]) (by simpa using hd)]
      rw [heq]
      exact h

/-- The strong position invariant is preserved by any run of adds. -/
theorem posInvariant_runAdds (inputs : List AddInput) :
    ∀ s : VectorMemory, posInvariant s → posInvariant (runAdds inputs s) := by
  induction inputs with
  | nil => intro s h; exact h
  | cons i rest ih => intro s h; exact ih _ (posInvariant_applyAdd s i h)

/-- The strong invariant implies the spec's non-deleted-entry invariant. -/
theorem posInvariant_memInvariant (s : VectorMemory)
    (h : posInvariant s) : memInvariant s :=
  ⟨fun p hp _ => h.1 p hp, h.2.imp (fun hne _ _ => hne)⟩

/-- Tombstoning never changes an entry's key. -/
theorem tombstone_fst (mid : String) (p : String × MemoryMeta) :
    (tombstone mid p).1 = p.1 := by
  unfold tombstone; split <;> rfl

/-- Tombstoning never changes an entry's `faiss_id`. -/
theorem tombstone_faiss_id (mid : String) (p : String × MemoryMeta) :
    (tombstone mid p).2.faiss_id = p.2.faiss_id := by
  unfold tombstone; split <;> rfl

/-- Tombstoning never changes an entry's `text`. -/
theorem tombstone_text (mid : String) (p : String × MemoryMeta) :
    (tombstone mid p).2.text = p.2.text := by
  unfold tombstone; split <;> rfl

/-- Tombstoning never changes an entry's user metadata. -/
theorem tombstone_metadata (mid : String) (p : String × MemoryMeta) :
    (tombstone mid p).2.metadata = p.2.metadata := by
  unfold tombstone; split <;> rfl

/-- Position lookup commutes with tombstoning. -/
theorem findByFaissId_tombstone (mid : String)
    (md : List (String × MemoryMeta)) (idx : ℕ) :
    findByFaissId (md.map (tombstone mid)) idx =
      (findByFaissId md idx).map (tombstone mid) := by
  unfold findByFaissId
  rw [List.find?_map]
  have hpred : ((fun p : String × MemoryMeta => p.2.faiss_id == idx) ∘
      tombstone mid) = (fun p => p.2.faiss_id == idx) := by
    funext p; simp [Function.comp, tombstone_faiss_id]
  rw [hpred]

/-- The result-collection loop of `search_memories` is blind to the
deleted flag: tombstoning any id leaves its output unchanged. -/
theorem collectResults_tombstone (mid : String)
    (md : List (String × MemoryMeta)) (t : ℤ) :
    ∀ hits, collectResults (md.map (tombstone mid)) t hits =
      collectResults md t hits
  | [] => rfl
  | (idx, score) :: rest => by
    have ih := collectResults_tombstone mid md t rest
    by_cases hts : t ≤ score
    · simp only [collectResults, hts, if_true]
      rw [findByFaissId_tombstone]
      cases hf : findByFaissId md idx with
      | none => simpa using ih
      | some p =>
        obtain ⟨k, m⟩ := p
        by_cases hk : (k == mid) = true
        · simp only [Option.map_some', tombstone, hk, if_true]
          by_cases hke : k = "" <;> simp [hke, ih]
        · have hk' : (k == mid) = false := by simpa using hk
          simp only [Option.map_some', tombstone, hk', Bool.false_eq_true,
            if_false]
          by_cases hke : k = "" <;> simp [hke, ih]
    · simp only [collectResults, hts, if_false, ih]

/-- `search_memories` returns the same results before and after any
`delete_memory` call: deletion is invisible to search. -/
theorem search_memories_delete (embed : String → Option Vec) (q : String)
    (k : ℕ) (t : ℤ) (s : VectorMemory) (mid : String) :
    search_memories embed q k t (delete_memory mid s).2 =
      search_memories embed q k t s := by
  unfold delete_memory
  by_cases hexists : s.metadata.any (fun p => p.1 == mid)
  · simp only [hexists, if_true]
    have hcore : search_memories_core embed q k t
        { s with metadata := s.metadata.map (tombstone mid) } =
        search_memories_core embed q k t s := by
      simp [search_memories_core, collectResults_tombstone]
    simp [search_memories, hcore]
  · simp [hexists]

/-- After a successful `delete_memory`, `get_memory` returns the entry
with its deleted flag set. -/
theorem get_memory_delete (mid : String) (s : VectorMemory)
    (h : (delete_memory mid s).1 = true) :
    ∃ m, get_memory mid (delete_memory mid s).2 = some m ∧
      m.deleted = true := by
  by_cases hexists : s.metadata.any (fun p => p.1 == mid)
  · unfold delete_memory
    simp only [hexists, if_true]
    unfold get_memory
    rw [List.find?_map]
    have hpred : ((fun p : String × MemoryMeta => p.1 == mid) ∘ tombstone mid)
        = (fun p => p.1 == mid) := by
      funext p; simp [Function.comp, tombstone_fst]
    rw [hpred]
    have hsome : (s.metadata.find? (fun p => p.1 == mid)).isSome = true :=
      List.find?_isSome.mpr (List.any_eq_true.mp hexists)
    cases hp : s.metadata.find? (fun p => p.1 == mid) with
    | none => rw [hp] at hsome; simp at hsome
    | some p =>
      have hk := List.find?_some hp
      refine ⟨{ p.2 with deleted := true }, ?_, rfl⟩
      simp only [Option.map_some']
      simp [tombstone, hk]
  · unfold delete_memory at h
    simp [hexists] at h

/-- Dispatching a subtask updates an agent's state but never adds or
removes registry keys, so registered-ness of any name is stable. -/
theorem lookupAgent_setAgent_isSome (r : Registry) (nm nm' : String)
    (a : Agent) :
    (lookupAgent (setAgent r nm a) nm').isSome =
      (lookupAgent r nm').isSome := by
  unfold lookupAgent setAgent
  simp only [List.find?_map]
  have hpred : ((fun p : String × Agent => p.1 == nm') ∘
      fun p => if p.1 == nm then (p.1, a) else p) =
      (fun p => p.1 == nm') := by
    funext p
    by_cases h : (p.1 == nm) = true <;> simp [Function.comp, h]
  rw [hpred]
  cases r.agents.find? (fun p => p.1 == nm') <;> rfl

/-- The outcome a dispatched subtask records always carries that subtask's
handler name and description, whichever way execution went. -/
theorem dispatchSubtask_outcome (logics : String → AgentTask → Except String String)
    (ts now : ℕ) (st : Subtask) (ag : Agent) :
    (dispatchSubtask logics ts now st ag).1.agent = st.agent ∧
    (dispatchSubtask logics ts now st ag).1.subtask = st.description := by
  unfold dispatchSubtask
  cases h : execute_task (logics st.agent) now
      (add_task ts st.description ag).2 (add_task ts st.description ag).1 with
  | ok out =>
    obtain ⟨rec, ag', b⟩ := out
    by_cases hc : rec.status = .completed <;> simp [h, hc]
  | error e => simp [h]

/-- The delegation loop records exactly one outcome, in order, for each
subtask whose handler name is registered, labelled with that subtask's
handler name and description; subtasks naming unregistered handlers
contribute nothing. -/
theorem delegate_outcomes (logics : String → AgentTask → Except String String)
    (ts now : ℕ) :
    ∀ (subtasks : List Subtask) (r : Registry),
      (delegate logics ts now r subtasks).1.map (fun o => (o.agent, o.subtask)) =
        (subtasks.filter (fun st => (lookupAgent r st.agent).isSome)).map
          (fun st => (st.agent, st.description))
  | [], _ => rfl
  | st :: rest, r => by
    cases hl : lookupAgent r st.agent with
    | none =>
      have ih := delegate_outcomes logics ts now rest r
      simp [delegate, hl, ih]
    | some ag =>
      have ih := delegate_outcomes logics ts now rest
        (setAgent r st.agent (dispatchSubtask logics ts now st ag).2)
      have hfil : rest.filter (fun st' =>
          (lookupAgent (setAgent r st.agent
            (dispatchSubtask logics ts now st ag).2) st'.agent).isSome) =
          rest.filter (fun st' => (lookupAgent r st'.agent).isSome) :=
        List.filter_congr (fun x _ => by
          rw [lookupAgent_setAgent_isSome])
      have hout := dispatchSubtask_outcome logics ts now st ag
      have hpos : (fun st' : Subtask => (lookupAgent r st'.agent).isSome) st
          = true := by simp [hl]
      simp only [delegate, hl, List.map_cons, ih, hfil, hout.1, hout.2]
      rw [@List.filter_cons_of_pos _
        (fun st' : Subtask => (lookupAgent r st'.agent).isSome) st rest hpos,
        List.map_cons]

/-! ### Claim theorems -/

/-- C3 (counterexample): `_save_index` does not follow the
write-ahead-then-rename discipline — its trace writes the index artifact's
final path directly, so `atomicReplace` fails for it. -/
theorem C3_save_not_atomic_counterexample :
    ¬ atomicReplace (save_index_trace "db" "i" "m" "c")
        ("db" ++ "/faiss_index.bin") := by
  intro h
  exact h.2 "i" (by simp [save_index_trace])

/-- C3 (amended): `_save_index` writes each artifact (index, metadata,
config, in that order) directly to its final path and performs no rename
at all, so a crash between the index write and the metadata write can
leave a torn file. -/
theorem C3_save_writes_in_place (dir i m c : String) :
    FsOp.write (dir ++ "/faiss_index.bin") i ∈ save_index_trace dir i m c ∧
    FsOp.write (dir ++ "/metadata.pkl") m ∈ save_index_trace dir i m c ∧
    FsOp.write (dir ++ "/config.pkl") c ∈ save_index_trace dir i m c ∧
    ∀ src dst, FsOp.rename src dst ∉ save_index_trace dir i m c := by
  refine ⟨by simp [save_index_trace], by simp [save_index_trace],
    by simp [save_index_trace], ?_⟩
  intro src dst hmem
  simp [save_index_trace] at hmem

/-- C7: if the embedding computation fails, `add_memory` aborts with the
embedding-failure error and the store is left completely unchanged — no
vector inserted, no metadata entry created, `next_id` not advanced. -/
theorem C7_add_atomic_on_embedding_failure (embed : String → Option Vec)
    (text : String) (md : List (String × String)) (now : String)
    (s : VectorMemory) (h : embed text = none) :
    add_memory embed text md now s = .error (.embeddingFailure, s) :=
  add_memory_embed_fail embed text md now s h

/-- C7 (witness): the embedding-failure atomicity theorem at a concrete
store and provider. -/
theorem C7_witness :
    add_memory embedFail "hello" [] "t0" oneEntryStore =
      .error (.embeddingFailure, oneEntryStore) :=
  C7_add_atomic_on_embedding_failure embedFail "hello" [] "t0" oneEntryStore rfl

/-- C9 (counterexample): a response whose `{.*}` match loads as the
well-formed JSON object `{"foo": 1}` — which is no well-formed
decomposition — is returned by `_analyze_task` unchanged: no fallback is
built (`needs_delegation` is absent, not `false`), and the subsequent
`analysis["needs_delegation"]` access raises `KeyError` instead of
degrading to direct handling. -/
theorem C9_nonconforming_counterexample :
    analyze_task (.parsed [("foo", .num 1)]) = [("foo", .num 1)] ∧
    jsonLookup (analyze_task (.parsed [("foo", .num 1)]))
      "needs_delegation" = none ∧
    needsDelegationStep (analyze_task (.parsed [("foo", .num 1)])) =
      .error "KeyError: needs_delegation" :=
  ⟨rfl, rfl, rfl⟩

/-- C9 (amended): the fallback with `needs_delegation = false` and an
empty subtask list is built exactly when the response yields no `{.*}`
match or the match is not loadable JSON; a loadable dict is returned
unchanged, and if it lacks the `needs_delegation` key the dispatch test
raises `KeyError` rather than falling back. -/
theorem C9_fallback_only_on_parse_failure :
    (∀ extract : JsonParse, extract = .noMatch ∨ extract = .parseError →
      jsonLookup (analyze_task extract) "needs_delegation" =
        some (.bool false) ∧
      jsonLookup (analyze_task extract) "subtasks" = some (.arr [])) ∧
    (∀ d, analyze_task (.parsed d) = d) ∧
    (∀ d, jsonLookup d "needs_delegation" = none →
      needsDelegationStep (analyze_task (.parsed d)) =
        .error "KeyError: needs_delegation") := by
  refine ⟨?_, fun _ => rfl, ?_⟩
  · intro extract h
    rcases h with h | h <;> subst h <;> exact ⟨rfl, rfl⟩
  · intro d h
    simp [needsDelegationStep, analyze_task, h]

/-- C9 (witness): the amended theorem at both concrete parse failures and
at the concrete non-conforming dict. -/
theorem C9_witness :
    (jsonLookup (analyze_task .noMatch) "needs_delegation" =
        some (.bool false) ∧
      jsonLookup (analyze_task .noMatch) "subtasks" = some (.arr [])) ∧
    (jsonLookup (analyze_task .parseError) "needs_delegation" =
        some (.bool false) ∧
      jsonLookup (analyze_task .parseError) "subtasks" = some (.arr [])) ∧
    needsDelegationStep (analyze_task (.parsed [("foo", .num 1)])) =
      .error "KeyError: needs_delegation" :=
  ⟨C9_fallback_only_on_parse_failure.1 .noMatch (Or.inl rfl),
   C9_fallback_only_on_parse_failure.1 .parseError (Or.inr rfl),
   C9_fallback_only_on_parse_failure.2.2 [("foo", .num 1)] rfl⟩

/-- C10: `execute_task` on an id that is not in the agent's task map
raises `ValueError(f"Task {task_id} not found")` instead of returning a
record. -/
theorem C10_unknown_task_raises (logic : AgentTask → Except String String)
    (now : ℕ) (a : Agent) (tid : String) (h : lookupTask a tid = none) :
    execute_task logic now a tid = .error ("Task " ++ tid ++ " not found") := by
  simp [execute_task, h]

/-- C10 (witness): the unknown-id theorem on an agent with an empty task
map. -/
theorem C10_witness :
    execute_task logicOk 0 { name := "A", tasks := [] } "x" =
      .error ("Task " ++ "x" ++ " not found") :=
  C10_unknown_task_raises logicOk 0 { name := "A", tasks := [] } "x" rfl

/-- C5: `execute_task` is idempotent on non-Pending records — a record
whose status is not Pending is returned unchanged (same status, result and
error) with the agent state untouched and the execution logic not invoked;
consequently a second `execute_task` on the same id returns exactly the
record and state the first call produced, again without invoking the
logic. -/
theorem C5_execute_idempotent :
    (∀ (logic : AgentTask → Except String String) (now : ℕ) (a : Agent)
        (tid : String) (t : AgentTask),
        lookupTask a tid = some t → t.status ≠ .pending →
        execute_task logic now a tid = .ok (t, a, false)) ∧
    (∀ (logic : AgentTask → Except String String) (now₁ now₂ : ℕ)
        (a : Agent) (tid : String) (t₁ : AgentTask) (a₁ : Agent) (b₁ : Bool),
        execute_task logic now₁ a tid = .ok (t₁, a₁, b₁) →
        execute_task logic now₂ a₁ tid = .ok (t₁, a₁, false)) := by
  constructor
  · intro logic now a tid t hl hst
    simp [execute_task, hl, hst]
  · intro logic now₁ now₂ a tid t₁ a₁ b₁ h₁
    unfold execute_task at h₁
    cases hl : lookupTask a tid with
    | none => rw [hl] at h₁; simp at h₁
    | some task =>
      rw [hl] at h₁
      by_cases hst : task.status = .pending
      · simp [hst] at h₁
        cases hlog : logic { task with status := .running } with
        | ok r =>
          rw [hlog] at h₁
          simp at h₁
          obtain ⟨ht, ha, _⟩ := h₁
          have hl₁ : lookupTask a₁ tid = some t₁ := by
            rw [← ha, ← ht]
            exact lookupTask_setTask a tid task _ hl
          have hterm : t₁.status ≠ TaskStatus.pending := by
            rw [← ht]; simp
          simp [execute_task, hl₁, hterm]
        | error e =>
          rw [hlog] at h₁
          simp at h₁
          obtain ⟨ht, ha, _⟩ := h₁
          have hl₁ : lookupTask a₁ tid = some t₁ := by
            rw [← ha, ← ht]
            exact lookupTask_setTask a tid task _ hl
          have hterm : t₁.status ≠ TaskStatus.pending := by
            rw [← ht]; simp
          simp [execute_task, hl₁, hterm]
      · simp [hst] at h₁
        obtain ⟨ht, ha, _⟩ := h₁
        have hl₁ : lookupTask a₁ tid = some t₁ := by rw [← ha, ← ht]; exact hl
        have hterm : t₁.status ≠ TaskStatus.pending := by rw [← ht]; exact hst
        simp [execute_task, hl₁, hterm]

/-- C5 (witness): both idempotence conjuncts at a concrete agent whose
single task has already been executed to Completed. -/
theorem C5_witness :
    (execute_task logicOk 9
        (setTask agentOnePending "t1"
          { id := "t1", description := "work", status := .completed,
            result := some "r", error := none, completed_at := some 5 }) "t1"
      = .ok ({ id := "t1", description := "work", status := .completed,
               result := some "r", error := none, completed_at := some 5 },
             setTask agentOnePending "t1"
               { id := "t1", description := "work", status := .completed,
                 result := some "r", error := none, completed_at := some 5 },
             false)) ∧
    (execute_task logicOk 7
        (setTask agentOnePending "t1"
          { id := "t1", description := "work", status := .completed,
            result := some "r", error := none, completed_at := some 5 }) "t1"
      = .ok ({ id := "t1", description := "work", status := .completed,
               result := some "r", error := none, completed_at := some 5 },
             setTask agentOnePending "t1"
               { id := "t1", description := "work", status := .completed,
                 result := some "r", error := none, completed_at := some 5 },
             false)) :=
  ⟨C5_execute_idempotent.1 logicOk 9 _ "t1" _ (by decide) (by decide),
   C5_execute_idempotent.2 logicOk 5 7 agentOnePending "t1" _ _ true rfl⟩

/-- C6: on a Pending record that exists in the task map, `execute_task`
never propagates an exception — it always returns a record; and if the
execution logic raises `e`, the returned (and stored) record is the task
transitioned to Failed with `error = str(e)` and `completed_at` stamped,
its prior `result` untouched. -/
theorem C6_execute_catches_failures
    (logic : AgentTask → Except String String) (now : ℕ) (a : Agent)
    (tid : String) (t : AgentTask)
    (hl : lookupTask a tid = some t) (hst : t.status = .pending) :
    (∃ out, execute_task logic now a tid = .ok out) ∧
    (∀ e, logic { t with status := .running } = .error e →
      execute_task logic now a tid =
        .ok ({ t with
               status := .failed
               error := some e
               completed_at := some now },
             setTask a tid
               { t with
                 status := .failed
                 error := some e
                 completed_at := some now },
             true)) := by
  constructor
  · unfold execute_task
    rw [hl]
    simp only [hst]
    cases hlog : logic { t with status := .running } <;> simp
  · intro e hlog
    simp [execute_task, hl, hst, hlog]

/-- C6 (witness): the failure-containment theorem at a concrete Pending
task whose logic raises `"boom"`. -/
theorem C6_witness :
    (∃ out, execute_task logicBoom 3 agentOnePending "t1" = .ok out) ∧
    (execute_task logicBoom 3 agentOnePending "t1" =
      .ok ({ id := "t1", description := "work", status := .failed,
             result := none, error := some "boom", completed_at := some 3 },
           setTask agentOnePending "t1"
             { id := "t1", description := "work", status := .failed,
               result := none, error := some "boom", completed_at := some 3 },
           true)) :=
  ⟨(C6_execute_catches_failures logicBoom 3 agentOnePending "t1"
      { id := "t1", description := "work", status := .pending,
        result := none, error := none, completed_at := none }
      (by decide) rfl).1,
   (C6_execute_catches_failures logicBoom 3 agentOnePending "t1"
      { id := "t1", description := "work", status := .pending,
        result := none, error := none, completed_at := none }
      (by decide) rfl).2 "boom" rfl⟩

/-- C8: after every sequence of `add_memory` calls starting from an empty
store, every non-deleted entry's `faiss_id` is strictly below the index
size and no two non-deleted entries share a `faiss_id`. -/
theorem C8_positions_unique_and_bounded (inputs : List AddInput) (d : ℕ) :
    memInvariant (runAdds inputs (emptyStore d)) :=
  posInvariant_memInvariant _
    (posInvariant_runAdds inputs (emptyStore d)
      ⟨by simp [emptyStore], by simp [emptyStore]⟩)

/-- C1 (counterexample): on a concrete one-entry store, `delete_memory`
succeeds and a subsequent `search_memories` still returns the tombstoned
id — deleted entries are not filtered out of search results. -/
theorem C1_search_returns_deleted_counterexample :
    (delete_memory "mem_0" oneEntryStore).1 = true ∧
    "mem_0" ∈ (search_memories embedOne "q" 1 0
        (delete_memory "mem_0" oneEntryStore).2).map (fun r => r.id) := by
  decide

/-- C1 (amended): `delete_memory` is invisible to `search_memories` — the
search results (including any tombstoned id scoring above the threshold)
are identical before and after the delete — while `get_memory` on a
successfully deleted id returns the entry with `deleted = true`. -/
theorem C1_delete_tombstones_but_search_blind (embed : String → Option Vec)
    (q : String) (k : ℕ) (t : ℤ) (s : VectorMemory) (mid : String) :
    search_memories embed q k t (delete_memory mid s).2 =
      search_memories embed q k t s ∧
    ((delete_memory mid s).1 = true →
      ∃ m, get_memory mid (delete_memory mid s).2 = some m ∧
        m.deleted = true) :=
  ⟨search_memories_delete embed q k t s mid,
   get_memory_delete mid s⟩

/-- C1 (witness): the amended theorem at the concrete one-entry store. -/
theorem C1_witness :
    search_memories embedOne "q" 1 0 (delete_memory "mem_0" oneEntryStore).2 =
      search_memories embedOne "q" 1 0 oneEntryStore ∧
    ∃ m, get_memory "mem_0" (delete_memory "mem_0" oneEntryStore).2 = some m ∧
      m.deleted = true :=
  ⟨(C1_delete_tombstones_but_search_blind embedOne "q" 1 0 oneEntryStore
      "mem_0").1,
   (C1_delete_tombstones_but_search_blind embedOne "q" 1 0 oneEntryStore
      "mem_0").2 (by decide)⟩

/-- C4 (counterexample): on a non-empty store whose embedding provider
raises, the body of `search_memories` fails with the typed embedding
error, yet `search_memories` silently returns the default empty list
instead of propagating it. -/
theorem C4_search_swallows_counterexample :
    search_memories_core embedFail "q" 5 0 oneEntryStore =
      .error .embeddingFailure ∧
    search_memories embedFail "q" 5 0 oneEntryStore = [] :=
  ⟨rfl, rfl⟩

/-- C4 (amended): `add_memory` propagates the typed errors (embedding
failure, and dimension mismatch from the index) to its caller, but
`search_memories` catches every error of its body and silently returns
the empty list. -/
theorem C4_add_propagates_search_swallows :
    (∀ (embed : String → Option Vec) (text : String)
        (md : List (String × String)) (now : String) (s : VectorMemory),
        embed text = none →
        add_memory embed text md now s = .error (.embeddingFailure, s)) ∧
    (∀ (embed : String → Option Vec) (text : String)
        (md : List (String × String)) (now : String) (s : VectorMemory)
        (v : Vec), embed text = some v → v.length ≠ s.dimension →
        add_memory embed text md now s =
          .error (.dimensionMismatch, { s with next_id := s.next_id + 1 })) ∧
    (∀ (embed : String → Option Vec) (q : String) (k : ℕ) (t : ℤ)
        (s : VectorMemory) (e : MemErr),
        search_memories_core embed q k t s = .error e →
        search_memories embed q k t s = []) :=
  ⟨fun embed text md now s h => add_memory_embed_fail embed text md now s h,
   fun embed text md now s v hv hd =>
     add_memory_dim_mismatch embed text md now s v hv hd,
   fun embed q k t s e h => search_memories_swallows embed q k t s e h⟩

/-- C4 (witness): the amended theorem's three parts at concrete inputs —
a failing provider for add and search, and a 1-dimensional vector against
a 2-dimensional store for the mismatch. -/
theorem C4_witness :
    add_memory embedFail "x" [] "t" oneEntryStore =
      .error (.embeddingFailure, oneEntryStore) ∧
    add_memory embedOne "x" [] "t" (emptyStore 2) =
      .error (.dimensionMismatch,
        { emptyStore 2 with next_id := (emptyStore 2).next_id + 1 }) ∧
    search_memories embedFail "q" 5 0 oneEntryStore = [] :=
  ⟨C4_add_propagates_search_swallows.1 embedFail "x" [] "t" oneEntryStore rfl,
   C4_add_propagates_search_swallows.2.1 embedOne "x" [] "t" (emptyStore 2)
     [1] rfl (by decide),
   C4_add_propagates_search_swallows.2.2 embedFail "q" 5 0 oneEntryStore
     .embeddingFailure rfl⟩

/-- C2 (counterexample): three subtasks whose 2nd names the unregistered
handler `ToolAgent` yield only two outcomes — the unregistered subtask is
silently dropped, with no "handler unavailable" outcome recorded. -/
theorem C2_dropped_subtask_counterexample :
    (delegate logicsOk 0 0 regTwo threeSubtasks).1.length = 2 ∧
    (delegate logicsOk 0 0 regTwo threeSubtasks).1.map (fun o => o.agent) =
      ["CodeAgent", "DocsAgent"] := by
  decide

/-- C2 (amended): `delegate` records exactly one outcome, in the given
order, for each subtask whose handler name is registered — each outcome
labelled with that subtask's handler name and description — while
subtasks naming unregistered handlers are silently skipped with no
outcome; `synthesize` receives exactly that outcome list. -/
theorem C2_unregistered_subtasks_silently_dropped
    (logics : String → AgentTask → Except String String) (ts now : ℕ)
    (r : Registry) (subtasks : List Subtask) :
    (delegate logics ts now r subtasks).1.map (fun o => (o.agent, o.subtask)) =
      (subtasks.filter (fun st => (lookupAgent r st.agent).isSome)).map
        (fun st => (st.agent, st.description)) ∧
    ∀ synth, delegate_and_coordinate synth logics ts now r subtasks =
      synth (delegate logics ts now r subtasks).1 :=
  ⟨delegate_outcomes logics ts now subtasks r, fun _ => rfl⟩

end Assistant
